import Mathlib

/-!
# Verification of the Natron Knob subsystem (Knob.h)

Shallow embedding of the parameter ("Knob") subsystem: the `Variant` value
payload, `AnimationCurve` control points, the abstract `Knob` value state and
its per-dimension operations, and the concrete knob variants' constrained
state (`Int_Knob` min/max/increment vectors, `ComboBox_Knob` entries,
`Color_Knob` construction check).

C++ `std::vector` becomes `List`, `std::map` becomes an association list,
`double` is modelled as `ℚ`, and an `assert` becomes an `Option`-valued
operation returning `none` exactly when the asserted condition fails.
-/

namespace NatronKnob

/-- The `Variant` tagged union: per the data model it can hold a bool, an int,
a double (modelled as `ℚ`) or a string. -/
inductive Variant where
  | vInt (i : Int)
  | vBool (b : Bool)
  | vString (s : String)
  | vDouble (q : ℚ)
deriving DecidableEq

/-- The 32-bit `INT_MIN` sentinel pushed by `Int_Knob::setMinimum`. -/
def INT_MIN : Int := -2147483648

/-- The 32-bit `INT_MAX` sentinel pushed by `Int_Knob::setMaximum`. -/
def INT_MAX : Int := 2147483647

/-- The gap-filling `while` loop shared by the sparse-index setters:
`while (vec.size() <= index) vec.push_back(sentinel);`.  The loop runs
exactly `index + 1 - vec.size()` iterations, which we use as the structural
recursion argument; each iteration appends one sentinel. -/
def fillSentinels (gap : Nat) (l : List Int) (sentinel : Int) : List Int :=
  match gap with
  | 0 => l
  | g + 1 => fillSentinels g (l ++ [sentinel]) sentinel

theorem fillSentinels_eq (gap : Nat) (sentinel : Int) :
    ∀ l : List Int, fillSentinels gap l sentinel = l ++ List.replicate gap sentinel := by
  induction gap with
  | zero => intro l; simp [fillSentinels]
  | succ g ih =>
    intro l
    simp [fillSentinels, ih, List.replicate_succ]

/-- Source `Int_Knob::setMinimum(int mini, int index)`: if `index` is already within
`_minimums`, overwrite in place; else if `index == 0`, push back; otherwise
push `INT_MIN` while `size() <= index`, then push back `mini`.
(The trailing `emit minMaxChanged(mini, maximum, index)` signal is omitted;
it carries no state.) -/
def Int_Knob.setMinimum (minimums : List Int) (mini : Int) (index : Nat) : List Int :=
  if index < minimums.length then minimums.set index mini
  else if index = 0 then minimums ++ [mini]
  else fillSentinels (index + 1 - minimums.length) minimums INT_MIN ++ [mini]

/-- Source `Int_Knob::setIncrement(int incr, int index)`: `assert(incr > 0)`, then the
same in-range / index-0 / gap-fill structure with sentinel `1`.  The in-loop
`assert(_increments[_increments.size()-1] > 0)` re-checks the just-pushed `1`
and can never fail, so it adds no guard. -/
def Int_Knob.setIncrement (increments : List Int) (incr : Int) (index : Nat) :
    Option (List Int) :=
  if 0 < incr then
    if index < increments.length then some (increments.set index incr)
    else if index = 0 then some (increments ++ [incr])
    else some (fillSentinels (index + 1 - increments.length) increments 1 ++ [incr])
  else none

/-- Source `Int_Knob::setIncrement(const std::vector<int>& incr)`: the vector replaces
`_increments` wholesale and each element is asserted `> 0` (in the emit loop);
a violating element aborts the call. -/
def Int_Knob.setIncrementVector (_increments incr : List Int) : Option (List Int) :=
  if incr.all (fun x => decide (0 < x)) then some incr else none

/-- Source `Int_Knob::getIncrements()` returns the stored `_increments` vector. -/
def Int_Knob.getIncrements (increments : List Int) : List Int := increments

/-- Source `Int_Knob::getMinimums()` returns the stored `_minimums` vector. -/
def Int_Knob.getMinimums (minimums : List Int) : List Int := minimums

/-- One call to either `setIncrement` overload, for reasoning about arbitrary
call sequences on a single `Int_Knob`. -/
inductive IncOp where
  | single (incr : Int) (index : Nat)
  | vec (incr : List Int)

/-- Apply one `setIncrement` call to the `_increments` state. -/
def Int_Knob.applyIncOp (increments : List Int) : IncOp → Option (List Int)
  | .single incr index => Int_Knob.setIncrement increments incr index
  | .vec incr => Int_Knob.setIncrementVector increments incr

/-- Run a sequence of `setIncrement` calls; the sequence aborts (assertion
failure) as soon as one call does. -/
def Int_Knob.runIncOps (ops : List IncOp) (increments : List Int) : Option (List Int) :=
  match ops with
  | [] => some increments
  | op :: rest =>
    match Int_Knob.applyIncOp increments op with
    | some st => Int_Knob.runIncOps rest st
    | none => none

/-- Boolean strict-positivity of every stored increment. -/
def allPos (l : List Int) : Bool := l.all (fun x => decide (0 < x))

theorem allPos_iff (l : List Int) : allPos l = true ↔ ∀ x ∈ l, 0 < x := by
  simp [allPos]

theorem allPos_applyIncOp (l l' : List Int) (op : IncOp)
    (hl : allPos l = true) (h : Int_Knob.applyIncOp l op = some l') :
    allPos l' = true := by
  rw [allPos_iff] at hl ⊢
  cases op with
  | single incr index =>
    simp only [Int_Knob.applyIncOp, Int_Knob.setIncrement] at h
    split at h
    · next hpos =>
      split at h
      · injection h with h
        subst h
        intro x hx
        rcases List.mem_or_eq_of_mem_set hx with hmem | rfl
        · exact hl x hmem
        · exact hpos
      · split at h
        · injection h with h
          subst h
          intro x hx
          rcases List.mem_append.mp hx with hmem | hx
          · exact hl x hmem
          · rw [List.mem_singleton] at hx
            subst hx
            exact hpos
        · injection h with h
          subst h
          intro x hx
          simp only [fillSentinels_eq, List.append_assoc, List.mem_append,
            List.mem_replicate, List.mem_singleton] at hx
          rcases hx with hmem | (⟨_, rfl⟩ | rfl)
          · exact hl x hmem
          · norm_num
          · exact hpos
    · exact absurd h (by simp)
  | vec incr =>
    simp only [Int_Knob.applyIncOp, Int_Knob.setIncrementVector] at h
    split at h
    · next hall =>
      injection h with h
      subst h
      simpa using hall
    · exact absurd h (by simp)

theorem allPos_runIncOps (ops : List IncOp) :
    ∀ l l' : List Int, allPos l = true →
      Int_Knob.runIncOps ops l = some l' → allPos l' = true := by
  induction ops with
  | nil =>
    intro l l' hl h
    simp only [Int_Knob.runIncOps] at h
    injection h with h
    subst h
    exact hl
  | cons op rest ih =>
    intro l l' hl h
    simp only [Int_Knob.runIncOps] at h
    cases hstep : Int_Knob.applyIncOp l op with
    | none => rw [hstep] at h; exact absurd h (by simp)
    | some st =>
      rw [hstep] at h
      exact ih st l' (allPos_applyIncOp l st op hl hstep) h

/-- C1: claims that with only index 0 previously set, `setMinimum(m, 2)` pads
indices 1 with `INT_MIN` and appends `m` so that `getMinimums()` has size 3
with `m` at index 2.  The gap-fill loop condition `size() <= index` pads up to
and including index 2, so `m` actually lands at index 3: starting from
`_minimums = [5]`, `setMinimum(7, 2)` yields `[5, INT_MIN, INT_MIN, 7]` of
size 4 with `INT_MIN` (not 7) at index 2 — while the subsequent
`emit minMaxChanged(7, maximum, 2)` in the same function reports 7 as the new
minimum at index 2, contradicting the stored vector. -/
theorem c1_setMinimum_gap_eval :
    Int_Knob.getMinimums (Int_Knob.setMinimum [5] 7 2) = [5, INT_MIN, INT_MIN, 7] ∧
    (Int_Knob.getMinimums (Int_Knob.setMinimum [5] 7 2)).length = 4 ∧
    (Int_Knob.getMinimums (Int_Knob.setMinimum [5] 7 2)).get? 2 = some INT_MIN := by
  decide

/-- C10: after any sequence of `setIncrement` calls (single-index or vector
overload) that all pass their assertions, starting from the empty freshly
constructed `_increments`, every element of `getIncrements()` is strictly
positive. -/
theorem c10_increments_positive (ops : List IncOp) (l : List Int)
    (h : Int_Knob.runIncOps ops [] = some l) :
    allPos (Int_Knob.getIncrements l) = true :=
  allPos_runIncOps ops [] l (by decide) h

/-- Witness for C10: the concrete call sequence `setIncrement(2, 2)`;
`setIncrement({3, 4})`; `setIncrement(5, 0)` succeeds and yields an
all-positive increments vector. -/
theorem c10_increments_positive_witness :
    allPos (Int_Knob.getIncrements [5, 4]) = true :=
  c10_increments_positive [.single 2 2, .vec [3, 4], .single 5 0] [5, 4] (by decide)

/-- Insertion into an association-list model of `std::map`: replace the value
at an existing key, otherwise append the binding. -/
def mapInsert {α β : Type} [DecidableEq α] : List (α × β) → α → β → List (α × β)
  | [], k, v => [(k, v)]
  | (k0, v0) :: rest, k, v =>
    if k = k0 then (k, v) :: rest else (k0, v0) :: mapInsert rest k v

/-- Lookup in an association-list model of `std::map` (`find`). -/
def mapFind {α β : Type} [DecidableEq α] : List (α × β) → α → Option β
  | [], _ => none
  | (k0, v0) :: rest, k => if k = k0 then some v0 else mapFind rest k

theorem mapFind_eq_none {α β : Type} [DecidableEq α] (m : List (α × β)) (k : α)
    (h : ∀ p ∈ m, p.1 ≠ k) : mapFind m k = none := by
  induction m with
  | nil => rfl
  | cons p rest ih =>
    obtain ⟨k0, v0⟩ := p
    have hk : k ≠ k0 := fun hkk => h (k0, v0) (List.mem_cons_self _ _) (by simp [hkk])
    simp only [mapFind, if_neg hk]
    exact ih fun q hq => h q (List.mem_cons_of_mem _ hq)

/-- The value-carrying state of an abstract `Knob`: its fixed `_dimension`,
the static `_value` map `<dimension, Variant>`, and the `_keys` map holding
one ordered `<time, Variant>` map per animated dimension. -/
structure KnobValueState where
  dimension : Nat
  value : List (Nat × Variant)
  keys : List (Nat × List (ℚ × Variant))

/-- Modelled from the spec: `Knob::setValueInternal` is only declared in src
(its body is absent).  Per the spec's data-model invariant, a
`dimension_index` used in any per-dimension operation must be `< dimension`
(assertion-level contract); the store writes the variant into the `_value`
map at the given dimension. -/
def Knob.setValueInternal (st : KnobValueState) (v : Variant) (dimension : Nat) :
    Option KnobValueState :=
  if dimension < st.dimension then
    some { st with value := mapInsert st.value dimension v }
  else none

/-- Source `Knob::setValue(value, dimension)` (single-value template overload): wraps
the value in a `Variant` and delegates to `setValueInternal`. -/
def Knob.setValue (st : KnobValueState) (v : Variant) (dimension : Nat) :
    Option KnobValueState :=
  Knob.setValueInternal st v dimension

/-- Modelled from the spec: `Knob::setValueAtTimeInternal` is only declared in
src; per the spec it ensures the dimension's animation curve exists and
inserts/updates a keyframe at `time`. -/
def Knob.setValueAtTimeInternal (st : KnobValueState) (time : ℚ) (v : Variant)
    (dimension : Nat) : KnobValueState :=
  let curve := (mapFind st.keys dimension).getD []
  { st with keys := mapInsert st.keys dimension (mapInsert curve time v) }

/-- Source `Knob::setValueAtTime(time, value, dimensionIndex)`:
`assert(dimensionIndex < _dimension);` then delegates to
`setValueAtTimeInternal`. -/
def Knob.setValueAtTime (st : KnobValueState) (time : ℚ) (v : Variant)
    (dimensionIndex : Nat) : Option KnobValueState :=
  if dimensionIndex < st.dimension then
    some (Knob.setValueAtTimeInternal st time v dimensionIndex)
  else none

/-- Source `Knob::getValue(dimension)`: looks the dimension up in the `_value` map
and asserts the lookup succeeded (`assert(it != _value.end())`); a failed
lookup is the assertion failure, modelled as `none`. -/
def Knob.getValue (st : KnobValueState) (dimension : Nat) : Option Variant :=
  mapFind st.value dimension

/-- C5: on any knob state whose `_value` map only holds dimensions below
`_dimension` (as every store guarded by the dimension contract maintains),
the per-dimension operations succeed exactly for indices `< dimension`:
`setValue` and `setValueAtTime` pass their index checks iff `d < dimension`,
and `getValue` with `d ≥ dimension` necessarily fails its lookup assertion. -/
theorem c5_dimension_index_contract (st : KnobValueState) (v : Variant) (t : ℚ)
    (d : Nat) (hwf : ∀ p ∈ st.value, p.1 < st.dimension) :
    ((Knob.setValue st v d).isSome = true ↔ d < st.dimension) ∧
    ((Knob.setValueAtTime st t v d).isSome = true ↔ d < st.dimension) ∧
    (st.dimension ≤ d → Knob.getValue st d = none) := by
  refine ⟨?_, ?_, ?_⟩
  · simp only [Knob.setValue, Knob.setValueInternal]
    split
    · next h => simpa using h
    · next h => simpa using h
  · simp only [Knob.setValueAtTime]
    split
    · next h => simpa using h
    · next h => simpa using h
  · intro hd
    exact mapFind_eq_none st.value d fun p hp => by
      have := hwf p hp
      omega

/-- Witness for C5: a 2-dimensional knob holding a value at dimension 0;
index 2 fails all three operations' checks while index 1 passes the index
checks. -/
theorem c5_dimension_index_contract_witness :
    (((Knob.setValue ⟨2, [(0, .vInt 1)], []⟩ (.vInt 7) 2).isSome = true ↔ 2 < 2) ∧
      ((Knob.setValueAtTime ⟨2, [(0, .vInt 1)], []⟩ 1 (.vInt 7) 2).isSome = true ↔ 2 < 2) ∧
      (2 ≤ 2 → Knob.getValue ⟨2, [(0, .vInt 1)], []⟩ 2 = none)) ∧
    (((Knob.setValue ⟨2, [(0, .vInt 1)], []⟩ (.vInt 7) 1).isSome = true ↔ 1 < 2) ∧
      ((Knob.setValueAtTime ⟨2, [(0, .vInt 1)], []⟩ 1 (.vInt 7) 1).isSome = true ↔ 1 < 2) ∧
      (2 ≤ 1 → Knob.getValue ⟨2, [(0, .vInt 1)], []⟩ 1 = none)) :=
  ⟨c5_dimension_index_contract ⟨2, [(0, .vInt 1)], []⟩ (.vInt 7) 1 2 (by decide),
   c5_dimension_index_contract ⟨2, [(0, .vInt 1)], []⟩ (.vInt 7) 1 1 (by decide)⟩

/-- The knob flags relevant to change significance; per the spec a default
knob has `isInsignificant == false` (the source initialiser is absent from
src, and the flag is only set through `setIsInsignificant`). -/
structure KnobFlags where
  isInsignificant : Bool := false

/-- Source `Knob::setIsInsignificant(b)`: `_isInsignificant = b;`. -/
def Knob.setIsInsignificant (flags : KnobFlags) (b : Bool) : KnobFlags :=
  { flags with isInsignificant := b }

/-- The single call into the downstream engine:
`KnobHolder::evaluate(knob, isSignificant)`, recorded by its flag. -/
structure EvaluateCall where
  isSignificant : Bool
deriving DecidableEq

/-- Modelled from the spec: the body of the Knob→KnobHolder change pipeline
(`setValueInternal` / `KnobHolder::onValueChanged`) is absent from src.  Per
the spec, every value change that reaches the holder invokes
`evaluate(knob, isSignificant)` — in both cases — with `isSignificant` false
exactly when the changed knob's `isInsignificant` flag is true. -/
def KnobHolder.evaluateOnChange (flags : KnobFlags) : EvaluateCall :=
  { isSignificant := !flags.isInsignificant }

/-- C6: a value change on a knob with `isInsignificant == true` reaches
`evaluate` with `isSignificant == false`, and on a default-flag knob with
`isSignificant == true`; `evaluate` is invoked in both cases, only the flag
differs. -/
theorem c6_evaluate_significance :
    (KnobHolder.evaluateOnChange
        (Knob.setIsInsignificant {} true)).isSignificant = false ∧
    (KnobHolder.evaluateOnChange {}).isSignificant = true := by
  decide

/-- A `KeyFrame` as in the source: a `(time, value)` pair plus a left and a
right tangent, each a `(real, Value)` pair (`double` modelled as `ℚ`). -/
structure KeyFrame where
  time : ℚ
  value : Variant
  leftTangent : ℚ × Variant
  rightTangent : ℚ × Variant
deriving DecidableEq

/-- A keyframe at `time` with an integer value and zero tangents, for concrete
examples. -/
def mkKF (time : ℚ) (i : Int) : KeyFrame :=
  { time := time, value := .vInt i
    leftTangent := (0, .vInt 0), rightTangent := (0, .vInt 0) }

/-- The interpolation mode tag of an `AnimationCurve`. -/
inductive Interpolation where
  | CONSTANT
  | LINEAR
  | CUBIC
  | CATMULL_ROM
deriving DecidableEq

/-- Source `AnimationCurve::addControlPoint(cp)`: a plain `push_back` on
`_controlPoints` (the `QObject::connect` to forward `keyFrameChanged` carries
no list state). -/
def AnimationCurve.addControlPoint (controlPoints : List KeyFrame) (cp : KeyFrame) :
    List KeyFrame :=
  controlPoints ++ [cp]

/-- The spec's curve invariant: control points sorted by strictly increasing
time (so in particular no two keyframes share a time). -/
def strictlyOrderedByTime (l : List KeyFrame) : Prop :=
  l.Pairwise (fun a b => a.time < b.time)

instance (l : List KeyFrame) : Decidable (strictlyOrderedByTime l) := by
  unfold strictlyOrderedByTime
  infer_instance

theorem foldl_addControlPoint (ks : List KeyFrame) :
    ∀ acc : List KeyFrame, ks.foldl AnimationCurve.addControlPoint acc = acc ++ ks := by
  induction ks with
  | nil => intro acc; simp
  | cons k rest ih =>
    intro acc
    simp [List.foldl_cons, AnimationCurve.addControlPoint, ih]

/-- C3 counterexample: inserting a keyframe at time 5 and then one at time 3
leaves the control-point list `[time 5, time 3]`, which is not sorted by
strictly increasing time — `addControlPoint` never sorts. -/
theorem c3_push_back_unsorted :
    AnimationCurve.addControlPoint
        (AnimationCurve.addControlPoint [] (mkKF 5 0)) (mkKF 3 0)
      = [mkKF 5 0, mkKF 3 0] ∧
    ¬ strictlyOrderedByTime
        (AnimationCurve.addControlPoint
          (AnimationCurve.addControlPoint [] (mkKF 5 0)) (mkKF 3 0)) := by
  constructor
  · rfl
  · decide

/-- C3 amended: `addControlPoint` appends each keyframe at the end of the
control-point list in call order (no sorting, no duplicate-time check), so a
sequence of insertions yields a strictly-time-ordered curve exactly when the
insertion sequence itself was strictly increasing in time. -/
theorem c3_addControlPoint_appends (ks : List KeyFrame) :
    ks.foldl AnimationCurve.addControlPoint [] = ks ∧
    (strictlyOrderedByTime (ks.foldl AnimationCurve.addControlPoint []) ↔
      strictlyOrderedByTime ks) := by
  refine ⟨by simp [foldl_addControlPoint], ?_⟩
  rw [foldl_addControlPoint]
  simp

/-- Numeric reading of a `Variant` for interpolation arithmetic; the spec's
value union defines ordering/arithmetic only for the numeric tags, with no
implicit coercion beyond them. -/
def Variant.toRat : Variant → Option ℚ
  | .vInt i => some (i : ℚ)
  | .vDouble q => some q
  | _ => none

/-- Cubic Hermite blend on the normalised parameter `s ∈ [0, 1]` with endpoint
values `v0, v1` and endpoint slopes `m0, m1`. -/
def hermiteBlend (v0 m0 v1 m1 s : ℚ) : ℚ :=
  (2 * s ^ 3 - 3 * s ^ 2 + 1) * v0 + (s ^ 3 - 2 * s ^ 2 + s) * m0 +
    (-2 * s ^ 3 + 3 * s ^ 2) * v1 + (s ^ 3 - s ^ 2) * m1

/-- Modelled from the spec: the blend between the bracketing pair `(k0, k1)`
with `k0.time ≤ t < k1.time`, per interpolation mode — CONSTANT is the step
function returning `k0.value`; LINEAR is
`v0 + (v1 - v0) * (t - t0) / (t1 - t0)`; CUBIC is a Hermite blend using each
key's own tangent pair (the tangent's real component as the slope);
CATMULL-ROM's boundary tangent derivation is left open by the spec, so the
model uses the chord slope at both ends. -/
def interpBlend (interp : Interpolation) (k0 k1 : KeyFrame) (t : ℚ) : Option Variant :=
  match interp with
  | .CONSTANT => some k0.value
  | .LINEAR =>
    match k0.value.toRat, k1.value.toRat with
    | some v0, some v1 =>
      some (.vDouble (v0 + (v1 - v0) * (t - k0.time) / (k1.time - k0.time)))
    | _, _ => none
  | .CUBIC =>
    match k0.value.toRat, k1.value.toRat with
    | some v0, some v1 =>
      some (.vDouble (hermiteBlend v0 k0.rightTangent.1 v1 k1.leftTangent.1
        ((t - k0.time) / (k1.time - k0.time))))
    | _, _ => none
  | .CATMULL_ROM =>
    match k0.value.toRat, k1.value.toRat with
    | some v0, some v1 =>
      some (.vDouble (hermiteBlend v0 ((v1 - v0) / (k1.time - k0.time)) v1
        ((v1 - v0) / (k1.time - k0.time)) ((t - k0.time) / (k1.time - k0.time))))
    | _, _ => none

/-- Locate the bracketing pair `(k0, k1)` with `k0.time ≤ t < k1.time` in a
time-ordered control-point list. -/
def findBracket : List KeyFrame → ℚ → Option (KeyFrame × KeyFrame)
  | k0 :: k1 :: rest, t =>
    if k0.time ≤ t ∧ t < k1.time then some (k0, k1) else findBracket (k1 :: rest) t
  | _, _ => none

/-- Modelled from the spec: `AnimationCurve::getValueAt(t)` is only declared
in src.  Per the spec, a curve with zero keyframes leaves the result undefined
(`none`); if `t` is at or before the first key's time or at or after the last
key's time, the boundary key's value is returned (no extrapolation past the
curve); otherwise the bracketing pair is blended per the interpolation
mode. -/
def AnimationCurve.getValueAtModel (interp : Interpolation) (controlPoints : List KeyFrame)
    (t : ℚ) : Option Variant :=
  match controlPoints with
  | [] => none
  | first :: rest =>
    if t ≤ first.time then some first.value
    else if ((first :: rest).getLast (List.cons_ne_nil first rest)).time ≤ t then
      some ((first :: rest).getLast (List.cons_ne_nil first rest)).value
    else
      match findBracket (first :: rest) t with
      | some (k0, k1) => interpBlend interp k0 k1 t
      | none => none

/-- C4: for every interpolation mode and every nonempty, strictly
time-ordered curve, `getValueAt(t)` returns the first keyframe's value when
`t` is at or before the first keyframe's time and the last keyframe's value
when `t` is at or after the last keyframe's time. -/
theorem c4_getValueAt_clamps (interp : Interpolation) (cps : List KeyFrame) (t : ℚ)
    (hne : cps ≠ []) (hsorted : strictlyOrderedByTime cps) :
    (t ≤ (cps.head hne).time →
      AnimationCurve.getValueAtModel interp cps t = some (cps.head hne).value) ∧
    ((cps.getLast hne).time ≤ t →
      AnimationCurve.getValueAtModel interp cps t = some (cps.getLast hne).value) := by
  cases cps with
  | nil => exact absurd rfl hne
  | cons first rest =>
    constructor
    · intro hle
      simp only [List.head_cons] at hle
      simp only [AnimationCurve.getValueAtModel, List.head_cons]
      rw [if_pos hle]
    · intro hge
      by_cases hle : t ≤ first.time
      · cases rest with
        | nil =>
          simp only [AnimationCurve.getValueAtModel, List.getLast_singleton] at *
          rw [if_pos hle]
        | cons k2 rest2 =>
          exfalso
          have hne2 : (k2 :: rest2) ≠ [] := List.cons_ne_nil _ _
          have hcons : (first :: k2 :: rest2).getLast hne = (k2 :: rest2).getLast hne2 :=
            List.getLast_cons hne2
          have hmem : (k2 :: rest2).getLast hne2 ∈ k2 :: rest2 := List.getLast_mem hne2
          have h1 : first.time < ((k2 :: rest2).getLast hne2).time :=
            (List.pairwise_cons.mp hsorted).1 _ hmem
          rw [hcons] at hge
          exact absurd (lt_of_lt_of_le h1 (le_trans hge hle)) (lt_irrefl _)
      · simp only [AnimationCurve.getValueAtModel]
        rw [if_neg hle, if_pos hge]

/-- Witness for C4: on the LINEAR curve with keys at times 1 (value 10) and 3
(value 20), `getValueAt(0)` returns 10 and `getValueAt(5)` returns 20. -/
theorem c4_getValueAt_clamps_witness :
    AnimationCurve.getValueAtModel .LINEAR [mkKF 1 10, mkKF 3 20] 0
      = some (Variant.vInt 10) ∧
    AnimationCurve.getValueAtModel .LINEAR [mkKF 1 10, mkKF 3 20] 5
      = some (Variant.vInt 20) := by
  have h1 := c4_getValueAt_clamps .LINEAR [mkKF 1 10, mkKF 3 20] 0 (by decide) (by decide)
  have h2 := c4_getValueAt_clamps .LINEAR [mkKF 1 10, mkKF 3 20] 5 (by decide) (by decide)
  exact ⟨by simpa [mkKF] using h1.1 (by decide), by simpa [mkKF] using h2.2 (by decide)⟩

/-- The `Color_Knob` constructor's assertion
`assert(dimension <= 4 && dimension != 2);` (dimension is a C++ `int`, so it
can be zero or negative). -/
def Color_Knob.ctorAssert (dimension : Int) : Bool :=
  decide (dimension ≤ 4) && !(dimension == 2)

/-- C7 counterexample: dimension 0 lies outside `{1, 3, 4}` yet passes the
`Color_Knob` constructor's assertion (`0 <= 4 && 0 != 2`), so construction
with dimension 0 is not rejected; likewise dimension `-1`. -/
theorem c7_dimension_zero_passes :
    Color_Knob.ctorAssert 0 = true ∧ (0 : Int) ∉ ([1, 3, 4] : List Int) ∧
    Color_Knob.ctorAssert (-1) = true ∧ (-1 : Int) ∉ ([1, 3, 4] : List Int) := by
  decide

/-- C7 amended: the `Color_Knob` constructor's assertion fails exactly for
dimension 2 and dimensions greater than 4; dimensions 1, 3, 4 pass, and 0 or
negative dimensions also pass the check. -/
theorem c7_ctor_assert_iff (dimension : Int) :
    Color_Knob.ctorAssert dimension = false ↔ (4 < dimension ∨ dimension = 2) := by
  simp only [Color_Knob.ctorAssert, Bool.and_eq_false_iff, decide_eq_false_iff_not,
    not_le, Bool.not_eq_false', beq_iff_eq]

/-- The entry-list state of a `ComboBox_Knob`. -/
structure ComboBox_Knob where
  entries : List String
  entriesHelp : List String
deriving DecidableEq

/-- Source `ComboBox_Knob::populate(entries, entriesHelp)`: the function asserts
`_entriesHelp.empty() || _entriesHelp.size() == entries.size()` — note this
reads the member `_entriesHelp` (its pre-call contents) rather than the
`entriesHelp` argument — and then stores both arguments. -/
def ComboBox_Knob.populate (st : ComboBox_Knob) (entries entriesHelp : List String) :
    Option ComboBox_Knob :=
  if st.entriesHelp.isEmpty || st.entriesHelp.length == entries.length then
    some { entries := entries, entriesHelp := entriesHelp }
  else none

/-- C8: on a freshly constructed `ComboBox_Knob` (both lists empty), calling
`populate(["a"], ["h1", "h2"])` passes the assertion (it tests the still-empty
member `_entriesHelp`, not the argument) and stores a 2-element help list next
to a 1-element entries list, violating the claimed invariant that the stored
help list is empty or matches the entries list's length. -/
theorem c8_populate_stores_mismatched :
    ComboBox_Knob.populate ⟨[], []⟩ ["a"] ["h1", "h2"]
      = some ⟨["a"], ["h1", "h2"]⟩ ∧
    ¬((["h1", "h2"] : List String).isEmpty = true ∨
      (["h1", "h2"] : List String).length = (["a"] : List String).length) := by
  decide

/-- The name/description state of a `Knob`.  Per the source comment on
`_name`, "By default this is the same as _description but can be set by
calling setName()". -/
structure KnobName where
  description : String
  name : String
deriving DecidableEq

/-- Modelled from the spec: the `Knob` constructor body is absent from src;
per the source comments on `setName` and `_name`, the name defaults to the
description at construction. -/
def Knob.mkName (description : String) : KnobName :=
  { description := description, name := description }

/-- Source `Knob::setName(name)`: `_name = QString(name.c_str());` — an unconditional
overwrite with no set-once guard. -/
def Knob.setName (st : KnobName) (name : String) : KnobName :=
  { st with name := name }

/-- Source `Knob::getName()`: returns `_name`. -/
def Knob.getName (st : KnobName) : String := st.name

/-- C9 counterexample: after `setName("first")`, a second call
`setName("second")` still changes `getName()` — the name is not settable only
once. -/
theorem c9_setName_overwrites :
    Knob.getName (Knob.setName (Knob.setName (Knob.mkName "desc") "first") "second")
      = "second" ∧ ("second" : String) ≠ "first" := by
  constructor
  · rfl
  · decide

/-- C9 amended: the name defaults to the description at construction, and
every `setName` call (not only the first) overwrites it: after any prior
state, `getName` returns the argument of the most recent `setName`. -/
theorem c9_name_semantics (st : KnobName) (n : String) (d : String) :
    Knob.getName (Knob.setName st n) = n ∧ Knob.getName (Knob.mkName d) = d :=
  ⟨rfl, rfl⟩

/-- Length encoding used by the modelled serialization: `n` is written as `n`
copies of `'1'` followed by `'0'`. -/
def encNat (n : Nat) : List Char := List.replicate n '1' ++ ['0']

/-- Decoder matching `encNat`; returns the decoded number and the unread
remainder, or `none` on malformed input. -/
def decNat (cs : List Char) : Option (Nat × List Char) :=
  match cs with
  | '1' :: rest =>
    match decNat rest with
    | some (n, rest1) => some (n + 1, rest1)
    | none => none
  | '0' :: rest => some (0, rest)
  | _ => none

theorem decNat_encNat (n : Nat) :
    ∀ rest : List Char, decNat (encNat n ++ rest) = some (n, rest) := by
  induction n with
  | zero => intro rest; rfl
  | succ n ih =>
    intro rest
    have h : encNat (n + 1) ++ rest = '1' :: (encNat n ++ rest) := by
      simp [encNat, List.replicate_succ]
    rw [h]
    simp only [decNat]
    rw [ih]

/-- Signed-integer encoding: a sign tag then the magnitude. -/
def encInt (i : Int) : List Char :=
  if 0 ≤ i then 'p' :: encNat i.toNat else 'n' :: encNat (-i).toNat

/-- Decoder matching `encInt`. -/
def decInt (cs : List Char) : Option (Int × List Char) :=
  match cs with
  | 'p' :: rest =>
    match decNat rest with
    | some (n, rest1) => some ((n : Int), rest1)
    | none => none
  | 'n' :: rest =>
    match decNat rest with
    | some (n, rest1) => some (-(n : Int), rest1)
    | none => none
  | _ => none

theorem decInt_encInt (i : Int) (rest : List Char) :
    decInt (encInt i ++ rest) = some (i, rest) := by
  by_cases h : 0 ≤ i
  · simp only [encInt, if_pos h, List.cons_append, decInt]
    rw [decNat_encNat]
    simp [Int.toNat_of_nonneg h]
  · simp only [encInt, if_neg h, List.cons_append, decInt]
    rw [decNat_encNat]
    have h2 : ((-i).toNat : Int) = -i := Int.toNat_of_nonneg (by omega)
    simp [h2]

/-- String encoding: the character count, then the characters verbatim. -/
def encString (s : String) : List Char := encNat s.length ++ s.data

/-- Decoder matching `encString`. -/
def decString (cs : List Char) : Option (String × List Char) :=
  (decNat cs).bind fun p =>
    if p.1 ≤ p.2.length then some (String.mk (p.2.take p.1), p.2.drop p.1) else none

theorem decString_encString (s : String) (rest : List Char) :
    decString (encString s ++ rest) = some (s, rest) := by
  simp only [decString, encString, List.append_assoc]
  rw [decNat_encNat, Option.some_bind]
  have hlen : s.length = s.data.length := rfl
  rw [hlen]
  rw [if_pos (by simp), List.take_left, List.drop_left]

/-- Rational encoding: the reduced numerator then the reduced denominator. -/
def encRat (q : ℚ) : List Char := encInt q.num ++ encNat q.den

/-- Decoder matching `encRat`. -/
def decRat (cs : List Char) : Option (ℚ × List Char) :=
  (decInt cs).bind fun p =>
    (decNat p.2).bind fun d => some (mkRat p.1 d.1, d.2)

theorem decRat_encRat (q : ℚ) (rest : List Char) :
    decRat (encRat q ++ rest) = some (q, rest) := by
  simp only [decRat, encRat, List.append_assoc]
  rw [decInt_encInt, Option.some_bind]
  rw [decNat_encNat, Option.some_bind]
  rw [Rat.mkRat_self]

/-- Tagged encoding of one `Variant` value. -/
def encVariant : Variant → List Char
  | .vInt i => 'I' :: encInt i
  | .vBool true => 'B' :: ['t']
  | .vBool false => 'B' :: ['f']
  | .vString s => 'S' :: encString s
  | .vDouble q => 'D' :: encRat q

/-- Decoder matching `encVariant`. -/
def decVariant (cs : List Char) : Option (Variant × List Char) :=
  match cs with
  | 'I' :: rest => (decInt rest).bind fun p => some (.vInt p.1, p.2)
  | 'B' :: 't' :: rest => some (.vBool true, rest)
  | 'B' :: 'f' :: rest => some (.vBool false, rest)
  | 'S' :: rest => (decString rest).bind fun p => some (.vString p.1, p.2)
  | 'D' :: rest => (decRat rest).bind fun p => some (.vDouble p.1, p.2)
  | _ => none

theorem decVariant_encVariant (v : Variant) (rest : List Char) :
    decVariant (encVariant v ++ rest) = some (v, rest) := by
  cases v with
  | vInt i =>
    simp only [encVariant, List.cons_append, decVariant]
    rw [decInt_encInt, Option.some_bind]
  | vBool b => cases b <;> rfl
  | vString s =>
    simp only [encVariant, List.cons_append, decVariant]
    rw [decString_encString, Option.some_bind]
  | vDouble q =>
    simp only [encVariant, List.cons_append, decVariant]
    rw [decRat_encRat, Option.some_bind]

/-- Concatenated encoding of a per-dimension value list. -/
def encVariants : List Variant → List Char
  | [] => []
  | v :: rest => encVariant v ++ encVariants rest

/-- Decoder matching `encVariants`, reading a known number of values. -/
def decVariants : Nat → List Char → Option (List Variant × List Char)
  | 0, cs => some ([], cs)
  | n + 1, cs =>
    (decVariant cs).bind fun p =>
      (decVariants n p.2).bind fun q => some (p.1 :: q.1, q.2)

theorem decVariants_encVariants (l : List Variant) :
    ∀ rest : List Char, decVariants l.length (encVariants l ++ rest) = some (l, rest) := by
  induction l with
  | nil => intro rest; rfl
  | cons v vs ih =>
    intro rest
    simp only [List.length_cons, encVariants, List.append_assoc, decVariants]
    rw [decVariant_encVariant, Option.some_bind, ih, Option.some_bind]

/-- The concrete `Knob` variants, one per `typeName()`. -/
inductive KnobType where
  | inputFile
  | outputFile
  | int
  | bool
  | double
  | button
  | comboBox
  | separator
  | color
  | string
  | group
  | tab
  | richText
deriving DecidableEq

/-- The structural variants, whose `serialize` in src returns `""` and whose
`_restoreFromString` in src is a no-op: Button, Separator, Group and Tab. -/
def KnobType.isStructural : KnobType → Bool
  | .button | .separator | .group | .tab => true
  | _ => false

/-- Modelled from the spec: the value-carrying variants' `serialize` bodies
are absent from src (only declared); per the spec the encoding is
type-specific and must round-trip, so the model writes the per-dimension
value list with the reversible encoder above.  The structural variants
(Button, Separator, Group, Tab) follow src and serialize to `""`. -/
def Knob.serialize (t : KnobType) (values : List Variant) : String :=
  if t.isStructural then ""
  else String.mk (encNat values.length ++ encVariants values)

/-- Modelled from the spec: the value-carrying variants' `_restoreFromString`
bodies are absent from src; the model decodes the per-dimension value list
and, per the spec's error-handling contract, leaves the prior value state
intact on a malformed string.  The structural variants follow src and ignore
the string. -/
def Knob.restoreFromString (t : KnobType) (prior : List Variant) (s : String) :
    List Variant :=
  if t.isStructural then prior
  else
    match (decNat s.data).bind fun p => decVariants p.1 p.2 with
    | some (vs, []) => vs
    | _ => prior

/-- C2: for every concrete knob variant and every per-dimension value state,
`restoreFromString(serialize())` reproduces the value state for every
dimension (serialization round-trip law).  Structural variants serialize to
`""` and restore as a no-op, preserving their (empty) value state; the
value-carrying variants decode exactly what they encoded. -/
theorem c2_serialize_roundtrip (t : KnobType) (values : List Variant) :
    Knob.restoreFromString t values (Knob.serialize t values) = values := by
  cases ht : t.isStructural with
  | true => simp [Knob.serialize, Knob.restoreFromString, ht]
  | false =>
    simp only [Knob.serialize, Knob.restoreFromString, ht, Bool.false_eq_true,
      if_false]
    rw [decNat_encNat, Option.some_bind]
    have h2 : decVariants values.length (encVariants values) = some (values, []) := by
      have h3 := decVariants_encVariants values []
      rwa [List.append_nil] at h3
    rw [h2]

end NatronKnob
